import Mathlib

/-!
Verification of the oomd monitoring engine excerpt.

This file gives a shallow embedding, in Lean 4, of the parts of the oomd
source tree that the specification talks about:

  * src/Oomd.cpp                (updateContext: sampling and averaging)
  * src/OomdContext.cpp / .h    (flat map + manually linked cgroup tree)
  * src/src/oomd/util/Fs.cpp    (control-file readers, readDir,
                                 resolveWildcardPath, PSI parsing)
  * src/src/oomd/plugins/CorePluginsTest.cpp (senpai fixtures)

Machine floats (float / double in the C++) are modelled as rationals,
and machine integers as Int / Nat; no claim below depends on
floating-point rounding.  Fallible C++ code (functions that throw) is
modelled with Except.  Code of the repository that is not part of the
excerpt (Util.cpp, Types.h, CgroupPath.h, the senpai plugin) is
modelled from the specification text; every such definition carries a
doc comment starting with "Modelled from the spec:".
-/

namespace Oomd

/-- Split a character list at every occurrence of a delimiter. -/
def splitChars (c : Char) : List Char → List (List Char)
  | [] => [[]]
  | a :: as =>
    match splitChars c as with
    | [] => [[a]]
    | t :: ts => if a = c then [] :: t :: ts else (a :: t) :: ts

/-- Modelled from the spec: Util.cpp is not in the excerpt.  Util::split
splits a string on a single delimiter character and drops empty tokens
(the spec calls the result of splitting cgroup.controllers the
whitespace-split token list). -/
def utilSplit (s : String) (c : Char) : List String :=
  ((splitChars c s.data).filter (fun t => ¬t.isEmpty)).map (fun t => ⟨t⟩)

/-- Modelled from the spec: Util.cpp is not in the excerpt.
Util::startsWith prefix-tests its second argument against its first,
character by character. -/
def utilStartsWith (pre s : String) : Bool :=
  s.data.take pre.data.length = pre.data

/-- Decimal digit test, as std::isdigit on the ASCII range. -/
def isDigitB (c : Char) : Bool :=
  48 ≤ c.toNat ∧ c.toNat ≤ 57

/-- Parse a nonempty all-digit character list as a natural number. -/
def parseNatList (l : List Char) : Option ℕ :=
  if ¬l.isEmpty ∧ l.all isDigitB then
    some (l.foldl (fun acc c => acc * 10 + (c.toNat - 48)) 0)
  else
    none

/-- Parse a decimal integer with an optional leading minus sign. -/
def parseIntList : List Char → Option ℤ
  | '-' :: rest => (parseNatList rest).map (fun n => -(n : ℤ))
  | l => (parseNatList l).map (fun n => (n : ℤ))

/-- ResourcePressure from oomd/include/Types.h.  Modelled from the spec:
Types.h is not in the excerpt; the spec gives the fields avg10/avg60/avg300
(named sec_10 / sec_60 / sec_600 in the code that uses them) and an optional
total duration.  Floats are modelled as rationals. -/
structure ResourcePressure where
  sec_10 : ℚ := 0
  sec_60 : ℚ := 0
  sec_600 : ℚ := 0
  total : Option ℕ := none
deriving DecidableEq, Repr

/-- CgroupContext from oomd/include/Types.h.  Modelled from the spec:
Types.h is not in the excerpt; the fields are the six initialised by
Oomd::updateContext (src/Oomd.cpp line 114).  average_usage is the
exponentially smoothed usage, modelled as a rational. -/
structure CgroupContext where
  pressure : ResourcePressure := {}
  io_pressure : ResourcePressure := {}
  current_usage : ℤ := 0
  average_usage : ℚ := 0
  memory_low : ℤ := 0
  swap_usage : ℤ := 0
deriving DecidableEq, Repr

instance : Inhabited CgroupContext := ⟨{}⟩

/- ------------------------------------------------------------------
C2: the memory-controller check in Oomd::updateContext
------------------------------------------------------------------- -/

/-- Fs::readControllers (src/src/oomd/util/Fs.cpp lines 229-239): split the
first line of cgroup.controllers on spaces; an unreadable or empty file
yields the empty token list. -/
def readControllers (lines : List String) : List String :=
  match lines with
  | [] => []
  | first :: _ => utilSplit first ' '

/-- Outcome of sampling one monitored parent cgroup in
Oomd::updateContext: either the process aborts via std::abort, or
sampling proceeds. -/
inductive SampleOutcome where
  | aborted
  | proceeded
deriving DecidableEq, Repr

/-- The fail-fast check of Oomd::updateContext (src/Oomd.cpp lines
78-86): if no token of cgroup.controllers equals "memory" the process
calls std::abort; otherwise sampling proceeds. -/
def sampleParentCheck (controllersFile : List String) : SampleOutcome :=
  if (readControllers controllersFile).any (fun s => s = "memory") then
    .proceeded
  else
    .aborted

/- ------------------------------------------------------------------
C8: Fs::readSwapCurrent
------------------------------------------------------------------- -/

/-- std::stoll on a control-file line: returns the parsed integer or
throws std::invalid_argument.  Modelled as a decimal parser with an
optional leading minus, which covers the kernel's number format. -/
def stoll (s : String) : Except String ℤ :=
  match parseIntList s.data with
  | some n => .ok n
  | none => .error "stoll: invalid argument"

/-- Fs::readSwapCurrent (src/src/oomd/util/Fs.cpp lines 412-421): a
missing memory.swap.current file makes readFileByLine return no lines
(Fs.cpp lines 214-218), and any line count other than one yields 0
rather than an error. -/
def readSwapCurrent (lines : List String) : Except String ℤ :=
  if lines.length = 1 then
    stoll (lines.getD 0 "")
  else
    .ok 0

/- ------------------------------------------------------------------
C5: PSI format sniffing and Fs::readRespressure
------------------------------------------------------------------- -/

/-- PsiFormat from src/src/oomd/util/Fs.cpp lines 40-45. -/
inductive PsiFormat where
  | missing
  | invalid
  | experimental
  | upstream
deriving DecidableEq, Repr

/-- getPsiFormat (src/src/oomd/util/Fs.cpp lines 47-60). -/
def getPsiFormat (lines : List String) : PsiFormat :=
  match lines with
  | [] => .missing
  | first :: _ =>
    if utilStartsWith "some" first ∧ 2 ≤ lines.length then .upstream
    else if utilStartsWith "aggr" first ∧ 3 ≤ lines.length then .experimental
    else .invalid

/-- PressureType from oomd/util/Fs.h; the SOME/FULL selector. -/
inductive PressureType where
  | SOME
  | FULL
deriving DecidableEq, Repr

/-- Fs::pressureTypeToString (src/src/oomd/util/Fs.cpp lines 263-271). -/
def pressureTypeToString (t : PressureType) : String :=
  match t with
  | .SOME => "some"
  | .FULL => "full"

/-- The pressure_line_index switch of Fs::readRespressure
(src/src/oomd/util/Fs.cpp lines 280-287). -/
def pressureLineIndex (t : PressureType) : ℕ :=
  match t with
  | .SOME => 0
  | .FULL => 1

/-- std::stof on an average token, modelled as an exact decimal parser
into the rationals; a token std::stof rejects is an exception. -/
def stofQ (s : String) : Except String ℚ :=
  match splitChars '.' s.data with
  | [w] =>
    match parseNatList w with
    | some n => .ok (n : ℚ)
    | none => .error "stof: invalid argument"
  | [w, f] =>
    match parseNatList w, parseNatList f with
    | some wn, some fn => .ok ((wn : ℚ) + (fn : ℚ) / ((10 : ℚ) ^ f.length))
    | _, _ => .error "stof: invalid argument"
  | _ => .error "stof: invalid argument"

/-- std::stoull for the total= token. -/
def stoull (s : String) : Except String ℕ :=
  match parseNatList s.data with
  | some n => .ok n
  | none => .error "stoull: invalid argument"

/-- Fs::readRespressure (src/src/oomd/util/Fs.cpp lines 273-346) applied
to the lines of a pressure file.  Out-of-range vector accesses in the
C++ (undefined behaviour on malformed token lists) are modelled as
reading an empty string, which the subsequent format checks reject. -/
def readRespressure (lines : List String) (t : PressureType) :
    Except String ResourcePressure :=
  let typeName := pressureTypeToString t
  let idx := pressureLineIndex t
  match getPsiFormat lines with
  | .upstream =>
    let toks := utilSplit (lines.getD idx "") ' '
    if toks.getD 0 "" ≠ typeName then .error "invalid format"
    else
      let avg10 := utilSplit (toks.getD 1 "") '='
      if avg10.getD 0 "" ≠ "avg10" then .error "invalid format"
      else
        let avg60 := utilSplit (toks.getD 2 "") '='
        if avg60.getD 0 "" ≠ "avg60" then .error "invalid format"
        else
          let avg300 := utilSplit (toks.getD 3 "") '='
          if avg300.getD 0 "" ≠ "avg300" then .error "invalid format"
          else
            let total := utilSplit (toks.getD 4 "") '='
            if total.getD 0 "" ≠ "total" then .error "invalid format"
            else
              match stofQ (avg10.getD 1 ""), stofQ (avg60.getD 1 ""),
                  stofQ (avg300.getD 1 ""), stoull (total.getD 1 "") with
              | .ok a, .ok b, .ok c, .ok tot =>
                .ok { sec_10 := a, sec_60 := b, sec_600 := c, total := some tot }
              | _, _, _, _ => .error "stof: invalid argument"
  | .experimental =>
    let toks := utilSplit (lines.getD (idx + 1) "") ' '
    if toks.getD 0 "" ≠ typeName then .error "invalid format"
    else
      match stofQ (toks.getD 1 ""), stofQ (toks.getD 2 ""), stofQ (toks.getD 3 "") with
      | .ok a, .ok b, .ok c =>
        .ok { sec_10 := a, sec_60 := b, sec_600 := c, total := none }
      | _, _, _ => .error "stof: invalid argument"
  | .missing => .error "missing file"
  | .invalid => .error "invalid format"

/- ------------------------------------------------------------------
C1: the running-average pass of Oomd::updateContext
------------------------------------------------------------------- -/

/-- Modelled from the spec: the declaration of average_size_decay_ is in
Oomd.h, which is not in the excerpt; the spec fixes the decay constant
at 4 by default. -/
def averageSizeDecay : ℚ := 4

/-- Keyed lookup of a cgroup context in a per-tick snapshot.  The
averaging loop of Oomd::updateContext keys contexts by the full cgroup
path string (src/Oomd.cpp lines 111-114). -/
def lookupCtx (l : List (String × CgroupContext)) (k : String) :
    Option CgroupContext :=
  (l.find? (fun kc => kc.1 = k)).map (·.2)

/-- The prev_avg lookup of Oomd::updateContext (src/Oomd.cpp lines
120-123): the average stored under the same key in the previous tick's
context, and 0 when the key is absent. -/
def prevAvg (prev : List (String × CgroupContext)) (k : String) : ℚ :=
  match lookupCtx prev k with
  | some c => c.average_usage
  | none => 0

/-- The running-average pass of Oomd::updateContext (src/Oomd.cpp lines
118-130): every cgroup of the new context gets
average_usage = prev_avg * ((D-1)/D) + current_usage/D. -/
def updateAverages (prev newc : List (String × CgroupContext)) :
    List (String × CgroupContext) :=
  newc.map fun kc =>
    (kc.1,
      { kc.2 with
        average_usage :=
          prevAvg prev kc.1 * ((averageSizeDecay - 1) / averageSizeDecay) +
            (kc.2.current_usage : ℚ) / averageSizeDecay })

/- ------------------------------------------------------------------
C7: Fs::readDir
------------------------------------------------------------------- -/

/-- The dirent d_type values Fs::readDir inspects. -/
inductive DType where
  | DT_REG
  | DT_DIR
  | DT_LNK
  | DT_UNKNOWN
deriving DecidableEq, Repr

/-- One entry returned by readdir. -/
structure Dirent where
  d_name : String
  d_type : DType
deriving DecidableEq, Repr

/-- The DE_FILE / DE_DIR filter bits of Fs::readDir, modelled as two
booleans (the numeric values of the DirEntFlags enum live in Fs.h,
outside the excerpt). -/
structure DirEntFlags where
  de_file : Bool
  de_dir : Bool
deriving DecidableEq, Repr

/-- The result struct Fs::DirEnts. -/
structure DirEnts where
  files : List String
  dirs : List String
deriving DecidableEq, Repr

/-- S_IFREG bit of st_mode. -/
def S_IFREG : ℕ := 0x8000

/-- S_IFDIR bit of st_mode. -/
def S_IFDIR : ℕ := 0x4000

/-- The loop body of Fs::readDir (src/src/oomd/util/Fs.cpp lines
75-108), processing the dirent stream in order.  lstat is an oracle
from absolute path to st_mode (none models lstat returning -1).  Note
line 106 of the source: in the lstat fallback a directory entry is
pushed onto de.files, not de.dirs. -/
def readDirGo (lstat : String → Option ℕ) (path : String)
    (fl : DirEntFlags) : List Dirent → DirEnts
  | [] => ⟨[], []⟩
  | d :: rest =>
    let r := readDirGo lstat path fl rest
    if d.d_name.data.headD (Char.ofNat 0) = '.' then r
    else if fl.de_file ∧ d.d_type = .DT_REG then
      ⟨d.d_name :: r.files, r.dirs⟩
    else if fl.de_dir ∧ d.d_type = .DT_DIR then
      ⟨r.files, d.d_name :: r.dirs⟩
    else
      match lstat (path ++ "/" ++ d.d_name) with
      | none => r
      | some mode =>
        let pushFile := fl.de_file ∧ mode &&& S_IFREG ≠ 0
        let pushDirAsFile := fl.de_dir ∧ mode &&& S_IFDIR ≠ 0
        ⟨(if pushFile then [d.d_name] else []) ++
            (if pushDirAsFile then [d.d_name] else []) ++ r.files,
          r.dirs⟩

/-- Fs::readDir (src/src/oomd/util/Fs.cpp lines 66-112) on the dirent
stream of one directory. -/
def readDir (lstat : String → Option ℕ) (path : String)
    (dents : List Dirent) (fl : DirEntFlags) : DirEnts :=
  readDirGo lstat path fl dents

/- ------------------------------------------------------------------
C3: the senpai proactive-reclaim controller
------------------------------------------------------------------- -/

/-- Modelled from the spec: the senpai plugin source is not in the
excerpt (only its test fixture is).  The floor below which the limit is
never written, max(memory.min, limit_min_bytes). -/
def senpaiFloor (memmin limit_min_bytes : ℕ) : ℚ :=
  ((max memmin limit_min_bytes : ℕ) : ℚ)

/-- Modelled from the spec: senpai's first run initialises the limit
from memory.current (the SenpaiTest.Basic fixture observes memory.high
equal to memory.current after one run), clamped so the invariant of
spec section 4.7 holds from the start. -/
def senpaiInit (memmin limit_min_bytes current : ℕ) : ℚ :=
  max (senpaiFloor memmin limit_min_bytes) (current : ℚ)

/-- Modelled from the spec (section 4.7): one senpai tick.  Below the
pressure band the limit is reduced by the multiplicative step max_probe
and clamped to the floor; above the band it is raised by the backoff
step max_backoff; inside the band it is held. -/
def senpaiTick (memmin limit_min_bytes : ℕ)
    (max_probe max_backoff pressure_target_min pressure_target_max
      pressure_rate : ℚ) (L : ℚ) : ℚ :=
  if pressure_rate < pressure_target_min then
    max (senpaiFloor memmin limit_min_bytes) (L * (1 - max_probe))
  else if pressure_rate > pressure_target_max then
    L * (1 + max_backoff)
  else
    L

/-- Modelled from the spec: n senpai ticks under constant inputs. -/
def senpaiRun (memmin limit_min_bytes : ℕ)
    (max_probe max_backoff pressure_target_min pressure_target_max
      pressure_rate : ℚ) : ℕ → ℚ → ℚ
  | 0, L => L
  | n + 1, L =>
    senpaiRun memmin limit_min_bytes max_probe max_backoff
      pressure_target_min pressure_target_max pressure_rate n
      (senpaiTick memmin limit_min_bytes max_probe max_backoff
        pressure_target_min pressure_target_max pressure_rate L)

/- ------------------------------------------------------------------
C9: Fs::resolveWildcardPath over a modelled filesystem
------------------------------------------------------------------- -/

/-- A snapshot of the filesystem as resolveWildcardPath observes it:
which paths are directories (stat), the dirent stream readdir yields
for each directory path, and the lstat oracle used by readDir. -/
structure FileSys where
  isDir : String → Bool
  dents : String → List Dirent
  lstatMode : String → Option ℕ

/-- Fs::hasGlob (src/src/oomd/util/Fs.cpp lines 130-132): does the
segment contain a character special to fnmatch. -/
def hasGlob (s : String) : Bool :=
  s.data.any (fun c => c = '*' ∨ c = '[' ∨ c = '?')

/-- Modelled from the spec: fnmatch(3) is libc, not repository code.
Glob matching restricted to the * and ? constructs; bracket
expressions are treated as ordinary characters (no claim depends on
them). -/
def globMatch : List Char → List Char → Bool
  | [], s => s.isEmpty
  | '*' :: ps, s =>
    globMatch ps s ||
      (match s with
       | [] => false
       | _ :: s' => globMatch ('*' :: ps) s')
  | '?' :: ps, s =>
    match s with
    | [] => false
    | _ :: s' => globMatch ps s'
  | p :: ps, s =>
    match s with
    | [] => false
    | c :: s' => p = c && globMatch ps s'
termination_by p s => p.length + s.length

/-- fnmatch(pattern, entry, 0) == 0. -/
def fnmatch (pattern entry : String) : Bool :=
  globMatch pattern.data entry.data

/-- The worklist body of Fs::resolveWildcardPath (src/src/oomd/util/
Fs.cpp lines 158-196), written as the depth-first recursion the
explicit stack implements; the fuel argument equals the number of
remaining path parts and only bookkeeps termination. -/
def resolveFromGo (fs : FileSys) (parts : List String) :
    ℕ → String → ℕ → List String
  | 0, _, _ => []
  | fuel + 1, prefx, i =>
    if i < parts.length - 1 ∧ ¬hasGlob (parts.getD i "") then
      resolveFromGo fs parts fuel (prefx ++ parts.getD i "" ++ "/") (i + 1)
    else if ¬fs.isDir prefx then []
    else
      let de := readDir fs.lstatMode prefx (fs.dents prefx) ⟨true, true⟩
      let merged := de.files ++ de.dirs
      merged.flatMap fun entry =>
        if fnmatch (parts.getD i "") entry then
          if i = parts.length - 1 then [prefx ++ entry]
          else if i < parts.length - 1 then
            resolveFromGo fs parts fuel (prefx ++ entry ++ "/") (i + 1)
          else []
        else []

/-- Fs::resolveWildcardPath (src/src/oomd/util/Fs.cpp lines 134-199)
applied to the rendered absolute path of the cgroup glob; the result is
the set the unordered_set holds. -/
def resolveWildcardPath (fs : FileSys) (path : String) :
    Except String (Finset String) :=
  if path = "" then .ok ∅
  else
    let parts := utilSplit path '/'
    if parts.isEmpty then .error "No parts"
    else .ok (resolveFromGo fs parts parts.length "/" 0).toFinset

/-- Two observations of the same unchanged filesystem: stat and lstat
agree exactly, and readdir yields the same entries possibly in a
different order. -/
def FSEquiv (fs₁ fs₂ : FileSys) : Prop :=
  (∀ p, fs₁.isDir p = fs₂.isDir p) ∧
    (∀ p, (fs₁.dents p).Perm (fs₂.dents p)) ∧
    (∀ p, fs₁.lstatMode p = fs₂.lstatMode p)

/- ------------------------------------------------------------------
C4: OomdContext::reverseSort
------------------------------------------------------------------- -/

/-- Modelled from the spec: CgroupPath.h is not in the excerpt.  A
cgroup path is the cgroup filesystem mount root together with the
components of the relative path; an empty relative path denotes the
root cgroup, and ascend strips one trailing component (idempotent at
the root). -/
structure CgroupPath where
  root : String
  relative : List String
deriving DecidableEq, Repr

/-- CgroupPath::isRoot. -/
def CgroupPath.isRoot (p : CgroupPath) : Bool :=
  p.relative.isEmpty

/-- CgroupPath::ascend. -/
def CgroupPath.ascend (p : CgroupPath) : CgroupPath :=
  ⟨p.root, p.relative.dropLast⟩

/-- The comparator OomdContext::reverseSort passes to std::sort
(src/OomdContext.cpp lines 108-117): first is ordered before second
when its key is larger.  The double-valued key is modelled as a
rational-valued key. -/
def sortComp (getKey : CgroupContext → ℚ)
    (first second : CgroupPath × CgroupContext) : Prop :=
  getKey first.2 > getKey second.2

/-- What std::sort guarantees for OomdContext::reverseSort
(src/OomdContext.cpp lines 89-118): the output is a permutation of the
(path, context) pairs of the input, arranged so that no element
compares before an element preceding it.  std::sort guarantees nothing
further; in particular it is not a stable sort. -/
def ReverseSortSpec (getKey : CgroupContext → ℚ)
    (input output : List (CgroupPath × CgroupContext)) : Prop :=
  output.Perm input ∧
    output.Pairwise (fun a b => ¬sortComp getKey b a)

/-- The tie-stability property the claim asserts: pairs with equal keys
keep the relative order they had in the input. -/
def StableTies (getKey : CgroupContext → ℚ)
    (input output : List (CgroupPath × CgroupContext)) : Prop :=
  ∀ x ∈ input, ∀ y ∈ input, x ≠ y → getKey x.2 = getKey y.2 →
    (List.indexOf x input < List.indexOf y input ↔
      List.indexOf x output < List.indexOf y output)

/- ------------------------------------------------------------------
C6 and C10: OomdContext's flat map and manually linked cgroup tree
------------------------------------------------------------------- -/

/-- CgroupNode (src/OomdContext.h lines 37-47): a node of the manually
linked cgroup tree.  The C++ parent pointer is implicit in the tree
structure; children are owned in declaration order. -/
inductive CgroupNode : Type where
  | mk : CgroupPath → CgroupContext → Bool → List CgroupNode → CgroupNode

/-- The path field of a CgroupNode. -/
def CgroupNode.path : CgroupNode → CgroupPath
  | .mk p _ _ _ => p

/-- The ctx field of a CgroupNode. -/
def CgroupNode.ctx : CgroupNode → CgroupContext
  | .mk _ c _ _ => c

/-- The isEmptyBranch field of a CgroupNode. -/
def CgroupNode.isEmptyBranch : CgroupNode → Bool
  | .mk _ _ b _ => b

/-- The children field of a CgroupNode. -/
def CgroupNode.children : CgroupNode → List CgroupNode
  | .mk _ _ _ cs => cs

/-- Replace the children list of a node. -/
def CgroupNode.withChildren (n : CgroupNode) (cs : List CgroupNode) :
    CgroupNode :=
  .mk n.path n.ctx n.isEmptyBranch cs

/-- Mutation of the first list element a predicate selects, leaving the
rest alone; this renders an assignment through the pointer
std::find-style loops return. -/
def modifyFirst (p : CgroupNode → Bool) (f : CgroupNode → CgroupNode) :
    List CgroupNode → List CgroupNode
  | [] => []
  | a :: as => if p a then f a :: as else a :: modifyFirst p f as

/-- OomdContext::findInTree (src/OomdContext.cpp lines 223-244): the
root of the tree answers any root-level query (the path is not
compared there); below the root a child matches by full path
equality.  The fuel argument equals the length of the relative path
and only bookkeeps the ascend recursion's termination. -/
def findInTreeGo (t : Option CgroupNode) : ℕ → CgroupPath → Option CgroupNode
  | 0, p => if p.isRoot then t else none
  | fuel + 1, p =>
    if p.isRoot then t
    else
      match findInTreeGo t fuel p.ascend with
      | none => none
      | some parent => parent.children.find? (fun n => n.path = p)

/-- OomdContext::findInTree on a tree. -/
def findInTree (t : Option CgroupNode) (p : CgroupPath) : Option CgroupNode :=
  findInTreeGo t p.relative.length p

/-- Functional rendering of a C++ mutation through the node pointer
findInTree locates: apply f to the node the path query reaches,
navigating exactly as findInTree does. -/
def updateAtGo (t : Option CgroupNode) :
    ℕ → CgroupPath → (CgroupNode → CgroupNode) → Option CgroupNode
  | 0, p, f => if p.isRoot then t.map f else t
  | fuel + 1, p, f =>
    if p.isRoot then t.map f
    else
      updateAtGo t fuel p.ascend
        (fun parent =>
          parent.withChildren
            (modifyFirst (fun n => n.path = p) f parent.children))

/-- Mutation at the node a path locates. -/
def updateAt (t : Option CgroupNode) (p : CgroupPath)
    (f : CgroupNode → CgroupNode) : Option CgroupNode :=
  updateAtGo t p.relative.length p f

/-- The root base case of OomdContext::addToTreeHelper
(src/OomdContext.cpp lines 191-202): create the root node if there is
none — note the ctx argument is discarded, the node is
default-constructed — otherwise demand the same root path on pain of
the invalid_argument "Multiple cgroup FS detected". -/
def addToTreeRootBase (t : Option CgroupNode) (p : CgroupPath) :
    Except String (Option CgroupNode × CgroupPath) :=
  match t with
  | none => .ok (some (.mk p {} false []), p)
  | some r =>
    if p = r.path then .ok (some r, r.path)
    else .error "Multiple cgroup FS detected"

/-- OomdContext::addToTreeHelper (src/OomdContext.cpp lines 189-221).
Returns the new tree together with the path of the node the C++
returns a pointer to.  The fuel equals the relative path length. -/
def addToTreeHelperGo :
    ℕ → Option CgroupNode → CgroupPath → CgroupContext →
      Except String (Option CgroupNode × CgroupPath)
  | 0, t, p, _ =>
    if p.isRoot then addToTreeRootBase t p else .error "out of fuel"
  | fuel + 1, t, p, c =>
    if p.isRoot then addToTreeRootBase t p
    else
      match findInTree t p.ascend with
      | some _ =>
        .ok
          (updateAt t p.ascend
            (fun parent =>
              parent.withChildren (parent.children ++ [.mk p c false []])),
            p)
      | none =>
        match addToTreeHelperGo fuel t p.ascend {} with
        | .error e => .error e
        | .ok (t1, parentPath) =>
          let t2 := updateAt t1 parentPath
            (fun parent => .mk parent.path parent.ctx true parent.children)
          let t3 := updateAt t2 parentPath
            (fun parent =>
              parent.withChildren (parent.children ++ [.mk p c false []]))
          .ok (t3, p)

/-- OomdContext::addToTreeHelper on a tree. -/
def addToTreeHelper (t : Option CgroupNode) (p : CgroupPath)
    (c : CgroupContext) : Except String (Option CgroupNode × CgroupPath) :=
  addToTreeHelperGo p.relative.length t p c

/-- OomdContext::addToTree (src/OomdContext.cpp lines 177-187): update
the node in place when the path is already present, otherwise insert
it. -/
def addToTree (t : Option CgroupNode) (p : CgroupPath) (c : CgroupContext) :
    Except String (Option CgroupNode × CgroupPath) :=
  match findInTree t p with
  | some n =>
    .ok (updateAt t p (fun m => .mk m.path c false m.children), n.path)
  | none => addToTreeHelper t p c

/-- OomdContext state (src/OomdContext.h lines 119-121): the tree root
and the memory_state_ read cache.  The cache maps each inserted key to
the path of the tree node its stored pointer designates. -/
structure OomdContextS where
  root : Option CgroupNode
  memory_state : List (CgroupPath × CgroupPath)

/-- Assignment through unordered_map::operator[]: replace the value
under an existing key, or append a fresh entry. -/
def insertAssoc :
    List (CgroupPath × CgroupPath) → CgroupPath → CgroupPath →
      List (CgroupPath × CgroupPath)
  | [], k, v => [(k, v)]
  | kv :: rest, k, v =>
    if kv.1 = k then (k, v) :: rest else kv :: insertAssoc rest k v

/-- unordered_map::find on the read cache. -/
def lookupAssoc (l : List (CgroupPath × CgroupPath)) (k : CgroupPath) :
    Option CgroupPath :=
  (l.find? (fun kv => kv.1 = k)).map (·.2)

/-- OomdContext::setCgroupContext (src/OomdContext.cpp lines 83-87):
memory_state_[path] = addToTree(path, context); an exception from
addToTree leaves both the tree and the cache untouched. -/
def setCgroupContext (s : OomdContextS) (p : CgroupPath)
    (c : CgroupContext) : Except String OomdContextS :=
  match addToTree s.root p c with
  | .error e => .error e
  | .ok (t', nodePath) => .ok ⟨t', insertAssoc s.memory_state p nodePath⟩

/-- OomdContext::hasCgroupContext (src/OomdContext.cpp lines 52-54). -/
def hasCgroupContext (s : OomdContextS) (p : CgroupPath) : Bool :=
  (lookupAssoc s.memory_state p).isSome

/-- Dereference of the cached node pointer in
OomdContext::getCgroupContext; the none branch is dead code (the cache
only holds pointers to live nodes, see the reachable-state theorem). -/
def derefCtx (t : Option CgroupNode) (nodePath : CgroupPath) : CgroupContext :=
  match findInTree t nodePath with
  | some n => n.ctx
  | none => {}

/-- OomdContext::getCgroupContext (src/OomdContext.cpp lines 66-73):
throw invalid_argument("Cgroup not present") on a lookup miss, else
return the pointed-to node's ctx. -/
def getCgroupContext (s : OomdContextS) (p : CgroupPath) :
    Except String CgroupContext :=
  match lookupAssoc s.memory_state p with
  | none => .error "Cgroup not present"
  | some nodePath => .ok (derefCtx s.root nodePath)

/-- OomdContext::cgroups (src/OomdContext.cpp lines 56-64). -/
def cgroups (s : OomdContextS) : List CgroupPath :=
  s.memory_state.map (·.1)

/-- One setCgroupContext call of a history; the error branch (which
never arises, see below) keeps the state. -/
def stepOp (s : OomdContextS) (o : CgroupPath × CgroupContext) :
    OomdContextS :=
  match setCgroupContext s o.1 o.2 with
  | .ok s' => s'
  | .error _ => s

/-- An OomdContext built by a sequence of setCgroupContext calls
starting from the default-constructed context. -/
def runOps (ops : List (CgroupPath × CgroupContext)) : OomdContextS :=
  ops.foldl stepOp ⟨none, []⟩

/-- The context most recently set under a key in a history of
setCgroupContext calls. -/
def lastSet (ops : List (CgroupPath × CgroupContext)) (p : CgroupPath) :
    Option CgroupContext :=
  ops.foldl (fun acc o => if o.1 = p then some o.2 else acc) none

/- Abstract view of the tree used by the proofs: a node query is a walk
along the list of proper prefixes of the relative path. -/

/-- Walk down a node along a list of full-path keys, matching children
as findInTree does. -/
def nodeGet (n : CgroupNode) : List CgroupPath → Option CgroupNode
  | [] => some n
  | k :: ks =>
    match n.children.find? (fun m => m.path = k) with
    | none => none
    | some ch => nodeGet ch ks

/-- nodeGet lifted to an optional root. -/
def optGet (t : Option CgroupNode) (ks : List CgroupPath) :
    Option CgroupNode :=
  t.bind (fun n => nodeGet n ks)

/-- Modify the node a key-list walk reaches. -/
def nodeMod (f : CgroupNode → CgroupNode) :
    CgroupNode → List CgroupPath → CgroupNode
  | n, [] => f n
  | n, k :: ks =>
    n.withChildren
      (modifyFirst (fun m => m.path = k) (fun m => nodeMod f m ks)
        n.children)

/-- nodeMod lifted to an optional root. -/
def optMod (t : Option CgroupNode) (ks : List CgroupPath)
    (f : CgroupNode → CgroupNode) : Option CgroupNode :=
  t.map (fun n => nodeMod f n ks)

/-- The walk findInTree performs for a path: its nonempty relative
prefixes, shortest first. -/
def chain (p : CgroupPath) : List CgroupPath :=
  (List.range p.relative.length).map
    (fun i => ⟨p.root, p.relative.take (i + 1)⟩)

/- ------------------------------------------------------------------
Helper definitions for the proofs
------------------------------------------------------------------- -/

/-- The contribution of one dirent to the files list of Fs::readDir. -/
def entryFiles (lstat : String → Option ℕ) (path : String)
    (fl : DirEntFlags) (d : Dirent) : List String :=
  if d.d_name.data.headD (Char.ofNat 0) = '.' then []
  else if fl.de_file ∧ d.d_type = .DT_REG then [d.d_name]
  else if fl.de_dir ∧ d.d_type = .DT_DIR then []
  else
    match lstat (path ++ "/" ++ d.d_name) with
    | none => []
    | some mode =>
      (if fl.de_file ∧ mode &&& S_IFREG ≠ 0 then [d.d_name] else []) ++
        (if fl.de_dir ∧ mode &&& S_IFDIR ≠ 0 then [d.d_name] else [])

/-- The contribution of one dirent to the dirs list of Fs::readDir. -/
def entryDirs (lstat : String → Option ℕ) (path : String)
    (fl : DirEntFlags) (d : Dirent) : List String :=
  if d.d_name.data.headD (Char.ofNat 0) = '.' then []
  else if fl.de_file ∧ d.d_type = .DT_REG then []
  else if fl.de_dir ∧ d.d_type = .DT_DIR then [d.d_name]
  else []

/-- Demonstration filesystem: readdir lists the entries a then b. -/
def fsDemoA : FileSys where
  isDir := fun p => p = "/" ∨ p = "/a" ∨ p = "/b"
  dents := fun p => if p = "/" then [⟨"a", .DT_DIR⟩, ⟨"b", .DT_DIR⟩] else []
  lstatMode := fun _ => none

/-- The same filesystem observed with the opposite readdir order. -/
def fsDemoB : FileSys where
  isDir := fun p => p = "/" ∨ p = "/a" ∨ p = "/b"
  dents := fun p => if p = "/" then [⟨"b", .DT_DIR⟩, ⟨"a", .DT_DIR⟩] else []
  lstatMode := fun _ => none

/-- Fixture path under the default cgroup filesystem root. -/
def pathA : CgroupPath := ⟨"/sys/fs/cgroup", ["a"]⟩

/-- Fixture path under a second, different cgroup filesystem root. -/
def pathB : CgroupPath := ⟨"/other", ["b"]⟩

/-- The root cgroup path of the default cgroup filesystem. -/
def pathRoot : CgroupPath := ⟨"/sys/fs/cgroup", []⟩

/-- A fixture context distinguishable from the default-constructed one. -/
def ctxA : CgroupContext := { current_usage := 1 }

/-- A second distinguishable fixture context. -/
def ctxB : CgroupContext := { current_usage := 2 }

/- ==================================================================
Theorems
================================================================== -/

/-- Claim C2: for every monitored parent cgroup sampled by
updateContext, sampling aborts the process exactly when the token
"memory" is not among the tokens of that cgroup's cgroup.controllers
file; when it is present, sampling proceeds. -/
theorem claim_c2 (lines : List String) :
    sampleParentCheck lines = .aborted ↔ "memory" ∉ readControllers lines := by
  unfold sampleParentCheck
  by_cases h : "memory" ∈ readControllers lines
  · have ha : (readControllers lines).any (fun s => s = "memory") = true :=
      List.any_eq_true.mpr ⟨_, h, by simp⟩
    simp [ha, h]
  · have ha : (readControllers lines).any (fun s => s = "memory") = false := by
      rw [Bool.eq_false_iff]
      intro hc
      obtain ⟨x, hx, he⟩ := List.any_eq_true.mp hc
      simp only [decide_eq_true_eq] at he
      subst he
      exact h hx
    simp [ha, h]

/-- Witness for claim C2: a controllers file without the memory token
aborts. -/
theorem claim_c2_witness : sampleParentCheck ["cpuset cpu io"] = .aborted :=
  (claim_c2 ["cpuset cpu io"]).mpr (by decide)

/-- Claim C8: read_swap_current returns 0 rather than an error when
memory.swap.current is missing (readFileByLine yields no lines), and
returns the parsed integer when the file has exactly one numeric
line. -/
theorem claim_c8 :
    readSwapCurrent [] = .ok 0 ∧
      ∀ s n, parseIntList s.data = some n → readSwapCurrent [s] = .ok n := by
  refine ⟨rfl, fun s n h => ?_⟩
  simp [readSwapCurrent, stoll, h]

/-- Witness for claim C8 at a concrete one-line file. -/
theorem claim_c8_witness : readSwapCurrent ["123"] = .ok 123 :=
  claim_c8.2 "123" 123 (by decide)

/-- Claim C7: the same directory entry that the d_type fast path
returns in the dirs list is returned in the files list when its type
comes from the lstat fallback (Fs.cpp line 106 pushes onto de.files) —
the failing input of the C7 code bug. -/
theorem claim_c7 :
    readDir (fun q => if q = "/d/sub" then some S_IFDIR else none) "/d"
        [⟨"sub", .DT_DIR⟩] ⟨false, true⟩ = ⟨[], ["sub"]⟩ ∧
      readDir (fun q => if q = "/d/sub" then some S_IFDIR else none) "/d"
        [⟨"sub", .DT_UNKNOWN⟩] ⟨false, true⟩ = ⟨["sub"], []⟩ := by
  constructor <;> decide

/-- Claim C10: the failing input of the C10 code bug, evaluated.
Inserting a path whose cgroup filesystem root differs from the
established root succeeds (no "Multiple cgroup FS detected" error),
and both roots end up stored in the same OomdContext. -/
theorem claim_c10 :
    (setCgroupContext (runOps [(pathA, ctxA)]) pathB ctxB).isOk = true ∧
      pathA.root ≠ pathB.root ∧
      hasCgroupContext (runOps [(pathA, ctxA), (pathB, ctxB)]) pathA = true ∧
      hasCgroupContext (runOps [(pathA, ctxA), (pathB, ctxB)]) pathB = true ∧
      getCgroupContext (runOps [(pathA, ctxA), (pathB, ctxB)]) pathB
        = .ok ctxB := by
  refine ⟨rfl, ?_, rfl, rfl, rfl⟩
  intro h
  simp [pathA, pathB] at h

/-- Counterexample to claim C5 as stated: a one-line pressure file
whose first token is exactly "some" is not classified as the upstream
format; it raises BadControlFile instead. -/
theorem claim_c5_counterexample :
    (utilSplit "some avg10=0.22 avg60=0.17 avg300=1.11 total=58761459" ' ').getD 0 ""
        = "some" ∧
      getPsiFormat ["some avg10=0.22 avg60=0.17 avg300=1.11 total=58761459"]
        = PsiFormat.invalid ∧
      readRespressure ["some avg10=0.22 avg60=0.17 avg300=1.11 total=58761459"]
        PressureType.SOME = .error "invalid format" :=
  ⟨by decide, by decide, rfl⟩

/-- Claim C5 as amended: classification requires the line count as
well — a first line starting with "some" together with at least two
lines is upstream (total present on success), a first line starting
with "aggr" together with at least three lines is experimental (total
absent on success), and everything else, the empty file included,
raises BadControlFile. -/
theorem claim_c5 (lines : List String) (t : PressureType) :
    (getPsiFormat lines = .upstream ↔
      lines ≠ [] ∧ utilStartsWith "some" (lines.getD 0 "") = true ∧
        2 ≤ lines.length) ∧
    (getPsiFormat lines = .experimental ↔
      lines ≠ [] ∧
        ¬(utilStartsWith "some" (lines.getD 0 "") = true ∧ 2 ≤ lines.length) ∧
        utilStartsWith "aggr" (lines.getD 0 "") = true ∧ 3 ≤ lines.length) ∧
    (∀ rp, readRespressure lines t = .ok rp →
      (getPsiFormat lines = .upstream → rp.total.isSome = true) ∧
      (getPsiFormat lines = .experimental → rp.total = none)) ∧
    (getPsiFormat lines = .missing ∨ getPsiFormat lines = .invalid →
      ∃ e, readRespressure lines t = .error e) := by
  refine ⟨?_, ?_, ?_, ?_⟩
  · cases lines with
    | nil =>
      exact ⟨fun h => PsiFormat.noConfusion h, fun hp => absurd rfl hp.1⟩
    | cons first rest =>
      dsimp only [getPsiFormat]
      split
      · rename_i hc
        exact ⟨fun _ => ⟨List.cons_ne_nil _ _, hc.1, hc.2⟩, fun _ => rfl⟩
      · split
        · rename_i hc hc2
          exact ⟨fun h => PsiFormat.noConfusion h,
            fun hp => absurd ⟨hp.2.1, hp.2.2⟩ hc⟩
        · rename_i hc hc2
          exact ⟨fun h => PsiFormat.noConfusion h,
            fun hp => absurd ⟨hp.2.1, hp.2.2⟩ hc⟩
  · cases lines with
    | nil =>
      exact ⟨fun h => PsiFormat.noConfusion h, fun hp => absurd rfl hp.1⟩
    | cons first rest =>
      dsimp only [getPsiFormat]
      split
      · rename_i hc
        exact ⟨fun h => PsiFormat.noConfusion h, fun hp => absurd hc hp.2.1⟩
      · split
        · rename_i hc hc2
          exact ⟨fun _ => ⟨List.cons_ne_nil _ _, hc, hc2.1, hc2.2⟩, fun _ => rfl⟩
        · rename_i hc hc2
          exact ⟨fun h => PsiFormat.noConfusion h,
            fun hp => absurd ⟨hp.2.2.1, hp.2.2.2⟩ hc2⟩
  · intro rp h
    constructor
    · intro hup
      rw [readRespressure, hup] at h
      dsimp only at h
      split at h
      · exact absurd h (by simp)
      · split at h
        · exact absurd h (by simp)
        · split at h
          · exact absurd h (by simp)
          · split at h
            · exact absurd h (by simp)
            · split at h
              · exact absurd h (by simp)
              · split at h
                · rename_i a b c tot heq
                  cases h
                  rfl
                · exact absurd h (by simp)
    · intro hexp
      rw [readRespressure, hexp] at h
      dsimp only at h
      split at h
      · exact absurd h (by simp)
      · split at h
        · rename_i a b c heq
          cases h
          rfl
        · exact absurd h (by simp)
  · intro hbad
    rcases hbad with hm | hi
    · exact ⟨"missing file", by rw [readRespressure, hm]⟩
    · exact ⟨"invalid format", by rw [readRespressure, hi]⟩

/-- Witness for claim C5 at a concrete two-line upstream file and a
concrete three-line experimental file. -/
theorem claim_c5_witness :
    getPsiFormat
        ["some avg10=0.22 avg60=0.17 avg300=1.11 total=58761459",
          "full avg10=0.22 avg60=0.16 avg300=1.08 total=58464525"]
      = PsiFormat.upstream ∧
      getPsiFormat ["aggr 316016073", "some 0.00 0.03 0.05", "full 0.00 0.03 0.05"]
        = PsiFormat.experimental := by
  constructor
  · exact (claim_c5 _ PressureType.SOME).1.mpr
      ⟨by decide, by decide, by decide⟩
  · exact (claim_c5 _ PressureType.SOME).2.1.mpr
      ⟨by decide, by decide, by decide, by decide⟩

/-- Claim C1: for every cgroup of the new context, the recomputed
average equals prev_avg * ((D-1)/D) + current/D with D = 4, where
prev_avg is the average stored under the same key in the previous
tick's context and 0 when that key is absent (prevAvg). -/
theorem claim_c1 (prev newc : List (String × CgroupContext)) (k : String)
    (c : CgroupContext) (h : lookupCtx newc k = some c) :
    lookupCtx (updateAverages prev newc) k =
      some
        { c with
          average_usage :=
            prevAvg prev k * ((4 - 1) / 4) + (c.current_usage : ℚ) / 4 } := by
  induction newc with
  | nil => simp [lookupCtx] at h
  | cons hd tl ih =>
    by_cases hk : hd.1 = k
    · have hc : c = hd.2 := by
        simp [lookupCtx, List.find?, hk] at h
        exact h.symm
      subst hc
      simp [lookupCtx, updateAverages, List.find?, hk, averageSizeDecay]
    · have h' : lookupCtx tl k = some c := by
        simpa [lookupCtx, List.find?, hk] using h
      have := ih h'
      simpa [lookupCtx, updateAverages, List.find?, hk] using this

/-- Witness for claim C1: with a previous average of 8 and a current
usage of 4 the recomputed average is 8 * (3/4) + 4/4 = 7. -/
theorem claim_c1_witness :
    lookupCtx
        (updateAverages [("a", { average_usage := 8 })]
          [("a", { current_usage := 4 })]) "a"
      = some { current_usage := 4, average_usage := 7 } := by
  have h := claim_c1 [("a", { average_usage := 8 })]
    [("a", { current_usage := 4 })] "a" { current_usage := 4 } (by decide)
  rw [h]
  have hp : prevAvg [("a", ({ average_usage := 8 } : CgroupContext))] "a" = 8 := by
    simp [prevAvg, lookupCtx, List.find?]
  rw [hp]
  norm_num

/-- Counterexample to claim C4 as stated: with an all-ties key, the
reversed order of a two-element snapshot satisfies everything std::sort
guarantees for reverseSort, yet the relative order of the tied pair is
not the input order. -/
theorem claim_c4_counterexample :
    ReverseSortSpec (fun c => c.average_usage)
        [(⟨"r", ["a"]⟩, {}), (⟨"r", ["b"]⟩, {})]
        [(⟨"r", ["b"]⟩, {}), (⟨"r", ["a"]⟩, {})] ∧
      ¬StableTies (fun c => c.average_usage)
        [(⟨"r", ["a"]⟩, {}), (⟨"r", ["b"]⟩, {})]
        [(⟨"r", ["b"]⟩, {}), (⟨"r", ["a"]⟩, {})] := by
  constructor
  · constructor
    · exact List.Perm.swap _ _ _
    · refine List.Pairwise.cons ?_ (List.pairwise_singleton _ _)
      intro b hb
      simp only [List.mem_singleton] at hb
      subst hb
      simp [sortComp]
  · intro hst
    have h2 := hst (⟨"r", ["a"]⟩, {}) (by simp) (⟨"r", ["b"]⟩, {}) (by simp)
      (by decide) rfl
    have h3 := h2.mp (by decide)
    exact absurd h3 (by decide)

/-- Claim C4 as amended: every output std::sort may produce for
reverseSort is a permutation of the stored (path, context) pairs in
non-increasing key order; the order of pairs with equal keys is
unspecified. -/
theorem claim_c4 (getKey : CgroupContext → ℚ)
    (input output : List (CgroupPath × CgroupContext))
    (h : ReverseSortSpec getKey input output) :
    output.Perm input ∧
      output.Pairwise (fun a b => getKey b.2 ≤ getKey a.2) :=
  ⟨h.1, h.2.imp (fun hab => not_lt.mp hab)⟩

/-- Witness for claim C4 at a concrete sorted output. -/
theorem claim_c4_witness :
    ([(pathB, ctxB), (pathA, ctxA)] :
        List (CgroupPath × CgroupContext)).Perm [(pathA, ctxA), (pathB, ctxB)] ∧
      ([(pathB, ctxB), (pathA, ctxA)] :
          List (CgroupPath × CgroupContext)).Pairwise
        (fun a b => (fun c => (c.current_usage : ℚ)) b.2 ≤
          (fun c => (c.current_usage : ℚ)) a.2) := by
  refine claim_c4 (fun c => (c.current_usage : ℚ)) _ _ ⟨List.Perm.swap _ _ _, ?_⟩
  refine List.Pairwise.cons ?_ (List.pairwise_singleton _ _)
  intro b hb
  simp only [List.mem_singleton] at hb
  subst hb
  simp only [sortComp, ctxA, ctxB]
  norm_num


/-- Composition of senpai tick sequences. -/
theorem senpaiRun_add (memmin lmin : ℕ) (probe backoff tmin tmax rate : ℚ)
    (a b : ℕ) (L : ℚ) :
    senpaiRun memmin lmin probe backoff tmin tmax rate (a + b) L =
      senpaiRun memmin lmin probe backoff tmin tmax rate b
        (senpaiRun memmin lmin probe backoff tmin tmax rate a L) := by
  induction a generalizing L with
  | zero => rw [Nat.zero_add]; rfl
  | succ a ih =>
    rw [Nat.succ_add]
    show senpaiRun memmin lmin probe backoff tmin tmax rate (a + b) _ = _
    rw [ih]
    rfl

/-- Claim C3: the limit a senpai tick writes never drops below
max(memory.min, limit_min_bytes); and on the MemMin fixture
(memory.high = max, memory.current = 1073741824, all-zero pressure,
memory.min = 1048576000, limit_min_bytes = 0) one hundred ticks leave
memory.high at exactly 1048576000. -/
theorem claim_c3 :
    (∀ (memmin limit_min_bytes : ℕ) (probe backoff tmin tmax rate L : ℚ),
      0 ≤ probe → 0 ≤ backoff →
      senpaiFloor memmin limit_min_bytes ≤ L →
      senpaiFloor memmin limit_min_bytes ≤
        senpaiTick memmin limit_min_bytes probe backoff tmin tmax rate L) ∧
      senpaiRun 1048576000 0 (1/100) 1 (1/1000) (1/100) 0 100
        (senpaiInit 1048576000 0 1073741824) = 1048576000 := by
  constructor
  · intro memmin lmin probe backoff tmin tmax rate L hp hb hL
    unfold senpaiTick
    split
    · exact le_max_left _ _
    · split
      · have h0 : (0 : ℚ) ≤ senpaiFloor memmin lmin := by
          unfold senpaiFloor
          positivity
        have hL0 : (0 : ℚ) ≤ L := le_trans h0 hL
        have hle : L ≤ L * (1 + backoff) := by nlinarith
        exact le_trans hL hle
      · exact hL
  · have hfl : senpaiFloor 1048576000 0 = 1048576000 := by
      unfold senpaiFloor
      norm_num
    have htick : ∀ L : ℚ,
        senpaiTick 1048576000 0 (1/100) 1 (1/1000) (1/100) 0 L =
          max 1048576000 (L * (99/100)) := by
      intro L
      unfold senpaiTick
      rw [if_pos (by norm_num)]
      rw [hfl]
      norm_num
    have hinit : senpaiInit 1048576000 0 1073741824 = 1073741824 := by
      unfold senpaiInit
      rw [hfl]
      norm_num
    have hfix : ∀ n,
        senpaiRun 1048576000 0 (1/100) 1 (1/1000) (1/100) 0 n 1048576000 =
          1048576000 := by
      intro n
      induction n with
      | zero => rfl
      | succ n ih =>
        show senpaiRun 1048576000 0 (1/100) 1 (1/1000) (1/100) 0 n
          (senpaiTick 1048576000 0 (1/100) 1 (1/1000) (1/100) 0 1048576000) =
            1048576000
        rw [htick, max_eq_left (by norm_num)]
        exact ih
    have h3 : senpaiTick 1048576000 0 (1/100) 1 (1/1000) (1/100) 0
        (senpaiTick 1048576000 0 (1/100) 1 (1/1000) (1/100) 0
          (senpaiTick 1048576000 0 (1/100) 1 (1/1000) (1/100) 0 1073741824)) =
          1048576000 := by
      rw [htick 1073741824,
        max_eq_right (by norm_num : (1048576000:ℚ) ≤ 1073741824 * (99/100))]
      rw [htick (1073741824 * (99/100)), max_eq_right (by norm_num :
        (1048576000:ℚ) ≤ 1073741824 * (99/100) * (99/100))]
      rw [htick (1073741824 * (99/100) * (99/100)), max_eq_left (by norm_num :
        1073741824 * (99/100) * (99/100) * (99/100) ≤ (1048576000:ℚ))]
    rw [hinit]
    rw [show (100 : ℕ) = 3 + 97 from rfl,
      senpaiRun_add 1048576000 0 (1/100) 1 (1/1000) (1/100) 0 3 97]
    show senpaiRun 1048576000 0 (1/100) 1 (1/1000) (1/100) 0 97
      (senpaiTick 1048576000 0 (1/100) 1 (1/1000) (1/100) 0
        (senpaiTick 1048576000 0 (1/100) 1 (1/1000) (1/100) 0
          (senpaiTick 1048576000 0 (1/100) 1 (1/1000) (1/100) 0 1073741824))) =
        1048576000
    rw [h3]
    exact hfix 97

/-- Witness for claim C3 at the MemMin fixture's first tick. -/
theorem claim_c3_witness :
    senpaiFloor 1048576000 0 ≤
      senpaiTick 1048576000 0 (1/100) 1 (1/1000) (1/100) 0 1073741824 :=
  claim_c3.1 1048576000 0 (1/100) 1 (1/1000) (1/100) 0 1073741824
    (by norm_num) (by norm_num)
    (by unfold senpaiFloor; norm_num)



/-- Fs::readDir classifies every entry independently of the others. -/
theorem readDirGo_eq (lstat : String → Option ℕ) (path : String)
    (fl : DirEntFlags) :
    ∀ ds, readDirGo lstat path fl ds =
      ⟨ds.flatMap (entryFiles lstat path fl),
        ds.flatMap (entryDirs lstat path fl)⟩ := by
  intro ds
  induction ds with
  | nil => rfl
  | cons d rest ih =>
    by_cases h1 : d.d_name.data.head?.getD (Char.ofNat 0) = '.'
    · simp [readDirGo, ih, entryFiles, entryDirs, h1]
    · by_cases h2 : fl.de_file ∧ d.d_type = .DT_REG
      · simp [readDirGo, ih, entryFiles, entryDirs, h1, h2]
      · by_cases h3 : fl.de_dir ∧ d.d_type = .DT_DIR
        · simp [readDirGo, ih, entryFiles, entryDirs, h1, h2, h3]
        · cases hm : lstat (path ++ "/" ++ d.d_name) with
          | none => simp [readDirGo, ih, entryFiles, entryDirs, h1, h2, h3, hm]
          | some mode =>
            simp [readDirGo, ih, entryFiles, entryDirs, h1, h2, h3, hm]

/-- flatMap respects permutation of the list and pointwise permutation
of the function. -/
theorem flatMap_perm_congr {α β : Type} (l₁ l₂ : List α) (f g : α → List β)
    (hp : l₁.Perm l₂) (hfg : ∀ a, (f a).Perm (g a)) :
    (l₁.flatMap f).Perm (l₂.flatMap g) :=
  (hp.flatMap_right f).trans (List.Perm.flatMap_left l₂ (fun a _ => hfg a))

/-- The wildcard walk returns the same multiset of leaves over two
observations of the same filesystem. -/
theorem resolveFromGo_perm (fs₁ fs₂ : FileSys) (h : FSEquiv fs₁ fs₂)
    (parts : List String) :
    ∀ fuel prefx i,
      (resolveFromGo fs₁ parts fuel prefx i).Perm
        (resolveFromGo fs₂ parts fuel prefx i) := by
  intro fuel
  induction fuel with
  | zero => intro prefx i; exact List.Perm.refl _
  | succ fuel ih =>
    intro prefx i
    simp only [resolveFromGo]
    split
    · exact ih _ _
    · rw [h.1 prefx]
      by_cases hd : fs₂.isDir prefx
      · simp only [hd, not_true_eq_false, if_false]
        have hlst : ∀ a, entryFiles fs₁.lstatMode prefx ⟨true, true⟩ a =
            entryFiles fs₂.lstatMode prefx ⟨true, true⟩ a := by
          intro a
          unfold entryFiles
          rw [h.2.2]
        have hlstD : ∀ a, entryDirs fs₁.lstatMode prefx ⟨true, true⟩ a =
            entryDirs fs₂.lstatMode prefx ⟨true, true⟩ a := by
          intro a
          unfold entryDirs
          rfl
        have hmerged :
            ((readDir fs₁.lstatMode prefx (fs₁.dents prefx) ⟨true, true⟩).files ++
              (readDir fs₁.lstatMode prefx (fs₁.dents prefx) ⟨true, true⟩).dirs).Perm
            ((readDir fs₂.lstatMode prefx (fs₂.dents prefx) ⟨true, true⟩).files ++
              (readDir fs₂.lstatMode prefx (fs₂.dents prefx) ⟨true, true⟩).dirs) := by
          rw [readDir, readDirGo_eq, readDir, readDirGo_eq]
          exact List.Perm.append
            (flatMap_perm_congr _ _ _ _ (h.2.1 prefx)
              (fun a => (hlst a) ▸ List.Perm.refl _))
            (flatMap_perm_congr _ _ _ _ (h.2.1 prefx)
              (fun a => (hlstD a) ▸ List.Perm.refl _))
        refine flatMap_perm_congr _ _ _ _ hmerged ?_
        intro a
        by_cases hf : fnmatch (parts.getD i "") a = true
        · rw [if_pos hf, if_pos hf]
          by_cases hleaf : i = parts.length - 1
          · rw [if_pos hleaf, if_pos hleaf]
          · rw [if_neg hleaf, if_neg hleaf]
            by_cases hlt : i < parts.length - 1
            · rw [if_pos hlt, if_pos hlt]
              exact ih _ _
            · rw [if_neg hlt, if_neg hlt]
        · rw [if_neg hf, if_neg hf]
      · simp [hd]

/-- Claim C9: resolveWildcardPath is a function of the filesystem
state alone — two runs over the same unchanged filesystem (readdir
order may differ) return identical sets of absolute paths. -/
theorem claim_c9 (fs₁ fs₂ : FileSys) (h : FSEquiv fs₁ fs₂) (path : String) :
    resolveWildcardPath fs₁ path = resolveWildcardPath fs₂ path := by
  unfold resolveWildcardPath
  split
  · rfl
  · dsimp only
    split
    · rfl
    · congr 1
      exact List.toFinset_eq_of_perm _ _ (resolveFromGo_perm fs₁ fs₂ h _ _ _ _)

/-- Witness for claim C9 on a concrete two-entry directory listed in
opposite orders. -/
theorem claim_c9_witness :
    resolveWildcardPath fsDemoA "/*" = resolveWildcardPath fsDemoB "/*" := by
  refine claim_c9 fsDemoA fsDemoB ⟨fun p => rfl, fun p => ?_, fun p => rfl⟩ "/*"
  dsimp only [fsDemoA, fsDemoB]
  by_cases hp : p = "/"
  · simp only [hp, if_true]
    exact List.Perm.swap _ _ _
  · simp [hp]




theorem optGet_none (ks : List CgroupPath) : optGet none ks = none := rfl

theorem optGet_nil (t : Option CgroupNode) : optGet t [] = t := by
  cases t <;> rfl

theorem nodeGet_append (ks₁ ks₂ : List CgroupPath) (n : CgroupNode) :
    nodeGet n (ks₁ ++ ks₂) = (nodeGet n ks₁).bind (fun m => nodeGet m ks₂) := by
  induction ks₁ generalizing n with
  | nil => rfl
  | cons k ks ih =>
    simp only [List.cons_append, nodeGet]
    cases n.children.find? (fun m => m.path = k) with
    | none => rfl
    | some ch => exact ih ch

theorem optGet_append (t : Option CgroupNode) (ks₁ ks₂ : List CgroupPath) :
    optGet t (ks₁ ++ ks₂) = (optGet t ks₁).bind (fun m => nodeGet m ks₂) := by
  cases t with
  | none => rfl
  | some n => exact nodeGet_append ks₁ ks₂ n

theorem nodeGet_single (n : CgroupNode) (k : CgroupPath) :
    nodeGet n [k] = n.children.find? (fun m => m.path = k) := by
  simp only [nodeGet]
  cases n.children.find? (fun m => m.path = k) <;> rfl

theorem chain_isRoot (p : CgroupPath) (h : p.isRoot = true) : chain p = [] := by
  unfold chain
  have : p.relative.length = 0 := by
    simpa [CgroupPath.isRoot, List.isEmpty_iff_length_eq_zero] using h
  rw [this]
  rfl

theorem chain_snoc (p : CgroupPath) (h : p.isRoot = false) :
    chain p = chain p.ascend ++ [p] := by
  obtain ⟨r, rel⟩ := p
  have hne : rel ≠ [] := by
    simpa [CgroupPath.isRoot, List.isEmpty_iff] using h
  unfold chain CgroupPath.ascend
  dsimp only
  have hlen : rel.length = rel.dropLast.length + 1 := by
    have h1 : 0 < rel.length := List.length_pos.mpr hne
    rw [List.length_dropLast]
    omega
  rw [hlen, List.range_succ, List.map_append]
  congr 1
  · apply List.map_congr_left
    intro i hi
    simp only [List.mem_range] at hi
    have : i + 1 ≤ rel.dropLast.length := hi
    congr 1
    conv_lhs => rw [← List.dropLast_concat_getLast hne]
    exact List.take_append_of_le_length this
  · simp only [List.map_cons, List.map_nil]
    congr 2
    rw [← hlen]
    simp



theorem isRoot_ascend_len (p : CgroupPath) (h : p.isRoot = false) :
    p.ascend.relative.length + 1 = p.relative.length := by
  obtain ⟨r, rel⟩ := p
  have hne : rel ≠ [] := by
    simpa [CgroupPath.isRoot, List.isEmpty_iff] using h
  have h1 : 0 < rel.length := List.length_pos.mpr hne
  simp only [CgroupPath.ascend, List.length_dropLast]
  omega

theorem findInTreeGo_eq_optGet (t : Option CgroupNode) :
    ∀ fuel (p : CgroupPath), p.relative.length ≤ fuel →
      findInTreeGo t fuel p = optGet t (chain p) := by
  intro fuel
  induction fuel with
  | zero =>
    intro p hlen
    have hr : p.isRoot = true := by
      simp only [CgroupPath.isRoot, List.isEmpty_iff, ← List.length_eq_zero]
      omega
    rw [chain_isRoot p hr, optGet_nil]
    simp [findInTreeGo, hr]
  | succ fuel ih =>
    intro p hlen
    cases hr : p.isRoot with
    | true =>
      rw [chain_isRoot p hr, optGet_nil]
      simp [findInTreeGo, hr]
    | false =>
      have hasc : p.ascend.relative.length ≤ fuel := by
        have := isRoot_ascend_len p hr
        omega
      rw [chain_snoc p hr, optGet_append]
      simp only [findInTreeGo, hr, Bool.false_eq_true, if_false]
      rw [ih p.ascend hasc]
      cases optGet t (chain p.ascend) with
      | none => rfl
      | some parent => rw [Option.some_bind, nodeGet_single]

theorem findInTree_eq (t : Option CgroupNode) (p : CgroupPath) :
    findInTree t p = optGet t (chain p) :=
  findInTreeGo_eq_optGet t p.relative.length p le_rfl

theorem findInTree_none (p : CgroupPath) : findInTree none p = none := by
  rw [findInTree_eq]
  rfl

theorem modifyFirst_congr (p : CgroupNode → Bool)
    (f g : CgroupNode → CgroupNode) (h : ∀ a, f a = g a) :
    ∀ l, modifyFirst p f l = modifyFirst p g l := by
  intro l
  induction l with
  | nil => rfl
  | cons a as ih =>
    simp only [modifyFirst]
    rw [h a, ih]

theorem nodeMod_snoc (f : CgroupNode → CgroupNode) (ks : List CgroupPath)
    (k : CgroupPath) (n : CgroupNode) :
    nodeMod f n (ks ++ [k]) =
      nodeMod
        (fun m =>
          m.withChildren (modifyFirst (fun x => x.path = k) f m.children))
        n ks := by
  induction ks generalizing n with
  | nil => rfl
  | cons k₁ ks ih =>
    simp only [List.cons_append, nodeMod]
    congr 1
    exact modifyFirst_congr _ _ _ (fun m => ih m) _

theorem optMod_none (ks : List CgroupPath) (f : CgroupNode → CgroupNode) :
    optMod none ks f = none := rfl

theorem updateAtGo_eq_optMod (t : Option CgroupNode) :
    ∀ fuel (p : CgroupPath) (f : CgroupNode → CgroupNode),
      p.relative.length ≤ fuel →
      updateAtGo t fuel p f = optMod t (chain p) f := by
  intro fuel
  induction fuel with
  | zero =>
    intro p f hlen
    have hr : p.isRoot = true := by
      simp only [CgroupPath.isRoot, List.isEmpty_iff, ← List.length_eq_zero]
      omega
    rw [chain_isRoot p hr]
    show (if p.isRoot then t.map f else t) = optMod t [] f
    rw [if_pos hr]
    cases t <;> rfl
  | succ fuel ih =>
    intro p f hlen
    cases hr : p.isRoot with
    | true =>
      rw [chain_isRoot p hr]
      show (if p.isRoot then t.map f
        else updateAtGo t fuel p.ascend
          (fun parent =>
            parent.withChildren
              (modifyFirst (fun n => n.path = p) f parent.children)))
        = optMod t [] f
      rw [if_pos hr]
      cases t <;> rfl
    | false =>
      have hasc : p.ascend.relative.length ≤ fuel := by
        have := isRoot_ascend_len p hr
        omega
      rw [chain_snoc p hr]
      show (if p.isRoot then t.map f
        else updateAtGo t fuel p.ascend
          (fun parent =>
            parent.withChildren
              (modifyFirst (fun n => n.path = p) f parent.children)))
        = optMod t (chain p.ascend ++ [p]) f
      rw [if_neg (by simp [hr])]
      rw [ih p.ascend _ hasc]
      unfold optMod
      cases t with
      | none => rfl
      | some n =>
        show _ = some (nodeMod f n (chain p.ascend ++ [p]))
        exact congrArg some (nodeMod_snoc f (chain p.ascend) p n).symm

theorem updateAt_eq (t : Option CgroupNode) (p : CgroupPath)
    (f : CgroupNode → CgroupNode) :
    updateAt t p f = optMod t (chain p) f :=
  updateAtGo_eq_optMod t p.relative.length p f le_rfl



theorem find?_modifyFirst_same (pb : CgroupNode → Bool)
    (f : CgroupNode → CgroupNode) (hf : ∀ a, pb (f a) = pb a) :
    ∀ l, List.find? pb (modifyFirst pb f l) = (List.find? pb l).map f := by
  intro l
  induction l with
  | nil => rfl
  | cons a as ih =>
    by_cases ha : pb a = true
    · simp [modifyFirst, ha, List.find?_cons, hf a]
    · have ha' : pb a = false := by simpa using ha
      simp [modifyFirst, ha', List.find?_cons, ih]

theorem find?_modifyFirst_other (pa pb : CgroupNode → Bool)
    (f : CgroupNode → CgroupNode)
    (hdisj : ∀ a, pa a = true → pb a = false)
    (hf : ∀ a, pa (f a) = pa a) :
    ∀ l, List.find? pa (modifyFirst pb f l) = List.find? pa l := by
  intro l
  induction l with
  | nil => rfl
  | cons a as ih =>
    by_cases hb : pb a = true
    · have hpa : pa a = false := by
        by_cases hpa' : pa a = true
        · exact absurd (hdisj a hpa') (by simp [hb])
        · simpa using hpa'
      have hpaf : pa (f a) = false := by rw [hf a, hpa]
      simp [modifyFirst, hb, List.find?_cons, hpa, hpaf]
    · have hb' : pb a = false := by simpa using hb
      by_cases hpa : pa a = true
      · simp [modifyFirst, hb', List.find?_cons, hpa]
      · have hpa' : pa a = false := by simpa using hpa
        simp [modifyFirst, hb', List.find?_cons, hpa', ih]

theorem withChildren_mk (p : CgroupPath) (c : CgroupContext) (b : Bool)
    (cs cs' : List CgroupNode) :
    (CgroupNode.mk p c b cs).withChildren cs' = .mk p c b cs' := rfl

theorem children_mk (p : CgroupPath) (c : CgroupContext) (b : Bool)
    (cs : List CgroupNode) : (CgroupNode.mk p c b cs).children = cs := rfl

theorem path_mk (p : CgroupPath) (c : CgroupContext) (b : Bool)
    (cs : List CgroupNode) : (CgroupNode.mk p c b cs).path = p := rfl

theorem ctx_mk (p : CgroupPath) (c : CgroupContext) (b : Bool)
    (cs : List CgroupNode) : (CgroupNode.mk p c b cs).ctx = c := rfl

theorem nodeMod_path (f : CgroupNode → CgroupNode)
    (hf : ∀ m, (f m).path = m.path) :
    ∀ ks n, (nodeMod f n ks).path = n.path := by
  intro ks n
  cases ks with
  | nil => exact hf n
  | cons k ks => rfl

theorem nodeGet_nodeMod_same (f : CgroupNode → CgroupNode)
    (hf : ∀ m, (f m).path = m.path) :
    ∀ ks n, nodeGet (nodeMod f n ks) ks = (nodeGet n ks).map f := by
  intro ks
  induction ks with
  | nil => intro n; rfl
  | cons k ks ih =>
    intro n
    obtain ⟨np, nc, nb, ncs⟩ := n
    simp only [nodeMod, nodeGet, withChildren_mk, children_mk]
    rw [find?_modifyFirst_same (fun m => m.path = k)
      (fun m => nodeMod f m ks)
      (fun a => by simp [nodeMod_path f hf ks a])]
    cases List.find? (fun m => m.path = k) ncs with
    | none => rfl
    | some ch =>
      simp only [Option.map_some]
      exact ih ch



theorem nodeGet_nodeMod_pres (f : CgroupNode → CgroupNode)
    (hpath : ∀ m, (f m).path = m.path)
    (hctx : ∀ m, (f m).ctx = m.ctx)
    (hext : ∀ m, ∃ ext, (f m).children = m.children ++ ext) :
    ∀ (ks₁ : List CgroupPath) (n : CgroupNode) (ks₂ : List CgroupPath)
      (m : CgroupNode), nodeGet n ks₁ = some m →
      ∃ m', nodeGet (nodeMod f n ks₂) ks₁ = some m' ∧
        m'.ctx = m.ctx ∧ m'.path = m.path := by
  intro ks₁
  induction ks₁ with
  | nil =>
    intro n ks₂ m hm
    cases hm
    refine ⟨nodeMod f n ks₂, rfl, ?_, ?_⟩
    · cases ks₂ with
      | nil => exact hctx n
      | cons k ks =>
        obtain ⟨np, nc, nb, ncs⟩ := n
        rfl
    · exact nodeMod_path f hpath ks₂ n
  | cons k ks ih =>
    intro n ks₂ m hm
    obtain ⟨np, nc, nb, ncs⟩ := n
    simp only [nodeGet, children_mk] at hm
    cases hfind : List.find? (fun x => x.path = k) ncs with
    | none => rw [hfind] at hm; exact absurd hm (by simp)
    | some ch =>
      rw [hfind] at hm
      cases ks₂ with
      | nil =>
        obtain ⟨ext, hch⟩ := hext (CgroupNode.mk np nc nb ncs)
        refine ⟨m, ?_, rfl, rfl⟩
        simp only [nodeMod, nodeGet]
        rw [hch, children_mk, List.find?_append, hfind]
        exact hm
      | cons k₂ ks₂' =>
        by_cases hk : k = k₂
        · subst hk
          simp only [nodeMod, nodeGet, withChildren_mk, children_mk]
          rw [find?_modifyFirst_same (fun x => x.path = k)
            (fun x => nodeMod f x ks₂')
            (fun a => by simp [nodeMod_path f hpath ks₂' a]), hfind]
          simpa using ih ch ks₂' m hm
        · simp only [nodeMod, nodeGet, withChildren_mk, children_mk]
          rw [find?_modifyFirst_other (fun x => x.path = k)
            (fun x => x.path = k₂) (fun x => nodeMod f x ks₂')
            (fun a ha => by
              simp only [decide_eq_true_eq] at ha
              simp [ha, hk])
            (fun a => by simp [nodeMod_path f hpath ks₂' a]), hfind]
          exact ⟨m, hm, rfl, rfl⟩

theorem nodeGet_nodeMod_other (f : CgroupNode → CgroupNode)
    (hpath : ∀ m, (f m).path = m.path)
    (hch : ∀ m, (f m).children = m.children) :
    ∀ (ks₁ ks₂ : List CgroupPath) (n : CgroupNode), ks₁ ≠ ks₂ →
      (nodeGet (nodeMod f n ks₂) ks₁).map CgroupNode.ctx =
        (nodeGet n ks₁).map CgroupNode.ctx := by
  intro ks₁
  induction ks₁ with
  | nil =>
    intro ks₂ n hne
    cases ks₂ with
    | nil => exact absurd rfl hne
    | cons k₂ ks₂' =>
      obtain ⟨np, nc, nb, ncs⟩ := n
      rfl
  | cons k ks ih =>
    intro ks₂ n hne
    obtain ⟨np, nc, nb, ncs⟩ := n
    cases ks₂ with
    | nil =>
      simp only [nodeMod, nodeGet]
      rw [hch (CgroupNode.mk np nc nb ncs), children_mk]
    | cons k₂ ks₂' =>
      simp only [nodeMod, nodeGet, withChildren_mk, children_mk]
      by_cases hk : k = k₂
      · subst hk
        have hne' : ks ≠ ks₂' := by
          intro hh
          exact hne (by rw [hh])
        rw [find?_modifyFirst_same (fun x => x.path = k)
          (fun x => nodeMod f x ks₂')
          (fun a => by simp [nodeMod_path f hpath ks₂' a])]
        cases hfind : List.find? (fun x => x.path = k) ncs with
        | none => rfl
        | some ch =>
          simp only [Option.map_some]
          exact ih ks₂' ch hne'
      · rw [find?_modifyFirst_other (fun x => x.path = k)
          (fun x => x.path = k₂) (fun x => nodeMod f x ks₂')
          (fun a ha => by
            simp only [decide_eq_true_eq] at ha
            simp [ha, hk])
          (fun a => by simp [nodeMod_path f hpath ks₂' a])]



theorem ctx_withChildren (n : CgroupNode) (cs : List CgroupNode) :
    (n.withChildren cs).ctx = n.ctx := rfl

theorem path_withChildren (n : CgroupNode) (cs : List CgroupNode) :
    (n.withChildren cs).path = n.path := rfl

theorem children_withChildren (n : CgroupNode) (cs : List CgroupNode) :
    (n.withChildren cs).children = cs := rfl

theorem optGet_optMod_same (f : CgroupNode → CgroupNode)
    (hpath : ∀ m, (f m).path = m.path) (t : Option CgroupNode)
    (ks : List CgroupPath) :
    optGet (optMod t ks f) ks = (optGet t ks).map f := by
  cases t with
  | none => rfl
  | some n => exact nodeGet_nodeMod_same f hpath ks n

theorem optGet_optMod_pres (f : CgroupNode → CgroupNode)
    (hpath : ∀ m, (f m).path = m.path)
    (hctx : ∀ m, (f m).ctx = m.ctx)
    (hext : ∀ m, ∃ ext, (f m).children = m.children ++ ext)
    (t : Option CgroupNode) (ks₂ q : List CgroupPath) (m : CgroupNode)
    (hm : optGet t q = some m) :
    ∃ m', optGet (optMod t ks₂ f) q = some m' ∧
      m'.ctx = m.ctx ∧ m'.path = m.path := by
  cases t with
  | none => exact absurd hm (by simp [optGet])
  | some n => exact nodeGet_nodeMod_pres f hpath hctx hext q n ks₂ m hm

theorem optGet_optMod_other (f : CgroupNode → CgroupNode)
    (hpath : ∀ m, (f m).path = m.path)
    (hch : ∀ m, (f m).children = m.children)
    (t : Option CgroupNode) (ks₁ ks₂ : List CgroupPath) (hne : ks₁ ≠ ks₂) :
    (optGet (optMod t ks₂ f) ks₁).map CgroupNode.ctx =
      (optGet t ks₁).map CgroupNode.ctx := by
  cases t with
  | none => rfl
  | some n => exact nodeGet_nodeMod_other f hpath hch ks₁ ks₂ n hne

theorem addToTreeHelperGo_succ (fuel : ℕ) (t : Option CgroupNode)
    (p : CgroupPath) (c : CgroupContext) :
    addToTreeHelperGo (fuel + 1) t p c =
      if p.isRoot then addToTreeRootBase t p
      else
        match findInTree t p.ascend with
        | some _ =>
          .ok
            (updateAt t p.ascend
              (fun parent =>
                parent.withChildren (parent.children ++ [.mk p c false []])),
              p)
        | none =>
          match addToTreeHelperGo fuel t p.ascend {} with
          | .error e => .error e
          | .ok (t1, parentPath) =>
            .ok
              (updateAt
                (updateAt t1 parentPath
                  (fun parent =>
                    .mk parent.path parent.ctx true parent.children))
                parentPath
                (fun parent =>
                  parent.withChildren (parent.children ++ [.mk p c false []])),
                p) := rfl

theorem addToTreeHelperGo_isRoot (fuel : ℕ) (t : Option CgroupNode)
    (p : CgroupPath) (c : CgroupContext) (hr : p.isRoot = true) :
    addToTreeHelperGo fuel t p c = addToTreeRootBase t p := by
  cases fuel with
  | zero => simp [addToTreeHelperGo, hr]
  | succ fuel => rw [addToTreeHelperGo_succ, if_pos hr]

theorem findInTree_isRoot (t : Option CgroupNode) (p : CgroupPath)
    (hr : p.isRoot = true) : findInTree t p = t := by
  rw [findInTree_eq, chain_isRoot p hr, optGet_nil]



theorem helper_spec :
    ∀ (fuel : ℕ) (t : Option CgroupNode) (p : CgroupPath) (c : CgroupContext),
      p.relative.length = fuel → p.isRoot = false → findInTree t p = none →
      ∃ t', addToTreeHelperGo fuel t p c = .ok (t', p) ∧
        findInTree t' p = some (.mk p c false []) ∧
        ∀ q m, findInTree t q = some m →
          ∃ m', findInTree t' q = some m' ∧
            m'.ctx = m.ctx ∧ m'.path = m.path := by
  intro fuel
  induction fuel with
  | zero =>
    intro t p c hlen hr _
    exfalso
    have : p.isRoot = true := by
      simp only [CgroupPath.isRoot, List.isEmpty_iff, ← List.length_eq_zero]
      omega
    rw [this] at hr
    exact Bool.noConfusion hr
  | succ fuel ih =>
    intro t p c hlen hr hnone
    have hlenasc : p.ascend.relative.length = fuel := by
      have := isRoot_ascend_len p hr
      omega
    rw [addToTreeHelperGo_succ, if_neg (by simp [hr])]
    cases hpar : findInTree t p.ascend with
    | some parent =>
      refine ⟨_, rfl, ?_, ?_⟩
      · rw [findInTree_eq, chain_snoc p hr, updateAt_eq, optGet_append]
        rw [optGet_optMod_same _ (fun m => path_withChildren m _)]
        rw [findInTree_eq] at hpar
        rw [hpar]
        simp only [Option.map_some', Option.some_bind, nodeGet_single,
          children_withChildren]
        rw [List.find?_append]
        have hfn : List.find? (fun m => m.path = p) parent.children = none := by
          rw [findInTree_eq, chain_snoc p hr, optGet_append, hpar] at hnone
          simp only [Option.some_bind, nodeGet_single] at hnone
          exact hnone
        rw [hfn]
        simp [List.find?, path_mk]
      · intro q m hq
        rw [findInTree_eq] at hq ⊢
        rw [updateAt_eq]
        exact optGet_optMod_pres _ (fun m => path_withChildren m _)
          (fun m => ctx_withChildren m _)
          (fun m => ⟨[CgroupNode.mk p c false []], children_withChildren m _⟩)
          t _ _ m hq
    | none =>
      cases hra : p.ascend.isRoot with
      | true =>
        have ht : t = none := by
          rw [findInTree_isRoot t p.ascend hra] at hpar
          exact hpar
        subst ht
        rw [addToTreeHelperGo_isRoot fuel none p.ascend {} hra]
        simp only [addToTreeRootBase]
        refine ⟨_, rfl, ?_, ?_⟩
        · rw [findInTree_eq, chain_snoc p hr, chain_isRoot p.ascend hra]
          rw [updateAt_eq, updateAt_eq, chain_isRoot p.ascend hra]
          simp only [List.nil_append, optMod, Option.map_some', nodeMod]
          simp only [optGet, Option.some_bind, nodeGet_single,
            children_withChildren, children_mk]
          simp [List.find?, path_mk]
        · intro q m hq
          rw [findInTree_none] at hq
          exact absurd hq (by simp)
      | false =>
        obtain ⟨t1, heq1, hget1, hpres1⟩ := ih t p.ascend {} hlenasc hra hpar
        rw [heq1]
        refine ⟨_, rfl, ?_, ?_⟩
        · rw [findInTree_eq, chain_snoc p hr, updateAt_eq, updateAt_eq,
            optGet_append]
          rw [optGet_optMod_same _ (fun m => path_withChildren m _)]
          rw [optGet_optMod_same _ (fun m => path_mk _ _ _ _)]
          rw [findInTree_eq] at hget1
          rw [hget1]
          simp only [Option.map_some', Option.some_bind, nodeGet_single,
            children_withChildren, children_mk, ctx_mk, path_mk,
            List.nil_append]
          simp [List.find?, path_mk]
        · intro q m hq
          obtain ⟨m1, hm1, hc1, hp1⟩ := hpres1 q m hq
          rw [findInTree_eq] at hm1 ⊢
          rw [updateAt_eq, updateAt_eq]
          obtain ⟨m2, hm2, hc2, hp2⟩ :=
            optGet_optMod_pres _ (fun m => path_mk _ _ _ _)
              (fun m => ctx_mk _ _ _ _)
              (fun m => ⟨[], (List.append_nil _).symm⟩)
              t1 (chain p.ascend) _ m1 hm1
          obtain ⟨m3, hm3, hc3, hp3⟩ :=
            optGet_optMod_pres _ (fun m => path_withChildren m _)
              (fun m => ctx_withChildren m _)
              (fun m => ⟨[CgroupNode.mk p c false []], children_withChildren m _⟩)
              _ (chain p.ascend) _ m2 hm2
          exact ⟨m3, hm3, by rw [hc3, hc2, hc1], by rw [hp3, hp2, hp1]⟩



theorem chain_getLast (p : CgroupPath) (hp : p.isRoot = false) :
    (chain p).getLast? = some p := by
  rw [chain_snoc p hp]
  exact List.getLast?_concat _

theorem chain_ne (p q : CgroupPath) (hp : p.isRoot = false) (hne : q ≠ p) :
    chain q ≠ chain p := by
  intro hch
  cases hq : q.isRoot with
  | true =>
    rw [chain_isRoot q hq, chain_snoc p hp] at hch
    exact List.append_ne_nil_of_right_ne_nil _ (by simp) hch.symm
  | false =>
    have h1 := chain_getLast q hq
    have h2 := chain_getLast p hp
    rw [hch, h2] at h1
    exact hne (Option.some.inj h1).symm

theorem findInTree_path (t : Option CgroupNode) (p : CgroupPath)
    (n : CgroupNode) (hp : p.isRoot = false)
    (h : findInTree t p = some n) : n.path = p := by
  rw [findInTree_eq, chain_snoc p hp, optGet_append] at h
  cases hpar : optGet t (chain p.ascend) with
  | none => rw [hpar] at h; exact absurd h (by simp)
  | some parent =>
    rw [hpar] at h
    simp only [Option.some_bind, nodeGet_single] at h
    have := List.find?_some h
    simpa using this

theorem lookup_insert_same (m : List (CgroupPath × CgroupPath))
    (k v : CgroupPath) : lookupAssoc (insertAssoc m k v) k = some v := by
  induction m with
  | nil => simp [insertAssoc, lookupAssoc, List.find?]
  | cons kv rest ih =>
    by_cases hk : kv.1 = k
    · simp [insertAssoc, hk, lookupAssoc, List.find?]
    · simp only [insertAssoc, hk, if_false]
      simpa [lookupAssoc, List.find?, hk] using ih

theorem lookup_insert_other (m : List (CgroupPath × CgroupPath))
    (k v k' : CgroupPath) (hne : k' ≠ k) :
    lookupAssoc (insertAssoc m k v) k' = lookupAssoc m k' := by
  have hne' : k ≠ k' := Ne.symm hne
  induction m with
  | nil => simp [insertAssoc, lookupAssoc, List.find?, hne']
  | cons kv rest ih =>
    by_cases hk : kv.1 = k
    · subst hk
      simp [insertAssoc, lookupAssoc, List.find?, hne']
    · simp only [insertAssoc, hk, if_false]
      by_cases hk' : kv.1 = k'
      · simp [lookupAssoc, List.find?, hk']
      · simpa [lookupAssoc, List.find?, hk'] using ih

theorem set_root_level (s : OomdContextS) (q : CgroupPath)
    (c₀ : CgroupContext) (hq : q.isRoot = true) :
    ∃ s' v, setCgroupContext s q c₀ = .ok s' ∧
      s'.memory_state = insertAssoc s.memory_state q v ∧
      ∀ p, p.isRoot = false →
        (findInTree s'.root p).map CgroupNode.ctx =
          (findInTree s.root p).map CgroupNode.ctx := by
  have hlen : q.relative.length = 0 := by
    simpa [CgroupPath.isRoot, List.isEmpty_iff, List.length_eq_zero] using hq
  obtain ⟨t, mem⟩ := s
  cases t with
  | none =>
    refine ⟨⟨some (.mk q {} false []), insertAssoc mem q q⟩, q, ?_, rfl, ?_⟩
    · unfold setCgroupContext addToTree addToTreeHelper
      rw [findInTree_isRoot _ _ hq]
      rw [hlen, addToTreeHelperGo_isRoot _ _ _ _ hq]
      rfl
    · intro p hp
      show (findInTree (some (.mk q {} false [])) p).map CgroupNode.ctx =
        (findInTree none p).map CgroupNode.ctx
      rw [findInTree_none, findInTree_eq]
      obtain ⟨k, ks, hchain⟩ :=
        List.exists_cons_of_ne_nil
          (l := chain p)
          (by
            rw [chain_snoc p hp]
            exact List.append_ne_nil_of_right_ne_nil _ (by simp))
      rw [hchain]
      simp [optGet, nodeGet, children_mk, List.find?]
  | some r =>
    refine ⟨⟨updateAt (some r) q (fun m => .mk m.path c₀ false m.children),
      insertAssoc mem q r.path⟩, r.path, ?_, rfl, ?_⟩
    · unfold setCgroupContext addToTree
      rw [findInTree_isRoot _ _ hq]
    · intro p hp
      show (findInTree (updateAt (some r) q
          (fun m => .mk m.path c₀ false m.children)) p).map CgroupNode.ctx =
        (findInTree (some r) p).map CgroupNode.ctx
      rw [findInTree_eq, findInTree_eq, updateAt_eq, chain_isRoot q hq]
      exact optGet_optMod_other _ (fun m => path_mk _ _ _ _)
        (fun m => children_mk _ _ _ _) (some r) (chain p) []
        (by
          rw [chain_snoc p hp]
          exact List.append_ne_nil_of_right_ne_nil _ (by simp))



theorem set_nonroot (s : OomdContextS) (p : CgroupPath) (c : CgroupContext)
    (hp : p.isRoot = false) :
    ∃ s', setCgroupContext s p c = .ok s' ∧
      s'.memory_state = insertAssoc s.memory_state p p ∧
      (∃ n, findInTree s'.root p = some n ∧ n.ctx = c) ∧
      ∀ q m, q ≠ p → findInTree s.root q = some m →
        ∃ m', findInTree s'.root q = some m' ∧ m'.ctx = m.ctx := by
  obtain ⟨t, mem⟩ := s
  cases hfind : findInTree t p with
  | some n =>
    have hnp : n.path = p := findInTree_path t p n hp hfind
    refine ⟨⟨updateAt t p (fun m => .mk m.path c false m.children),
      insertAssoc mem p n.path⟩, ?_, ?_, ?_, ?_⟩
    · unfold setCgroupContext addToTree
      rw [hfind]
    · rw [hnp]
    · refine ⟨.mk n.path c false n.children, ?_, ctx_mk _ _ _ _⟩
      show findInTree (updateAt t p (fun m => .mk m.path c false m.children)) p
        = _
      rw [findInTree_eq, updateAt_eq,
        optGet_optMod_same _ (fun m => path_mk _ _ _ _)]
      rw [findInTree_eq] at hfind
      rw [hfind]
      rfl
    · intro q m hq hm
      show ∃ m', findInTree (updateAt t p
          (fun x => .mk x.path c false x.children)) q = some m' ∧
        m'.ctx = m.ctx
      rw [findInTree_eq, updateAt_eq]
      rw [findInTree_eq] at hm
      have hmap := optGet_optMod_other
        (fun x => CgroupNode.mk x.path c false x.children)
        (fun x => path_mk _ _ _ _) (fun x => children_mk _ _ _ _)
        t (chain q) (chain p) (chain_ne p q hp hq)
      rw [hm] at hmap
      obtain ⟨m', hm', hc'⟩ := Option.map_eq_some'.mp hmap
      exact ⟨m', hm', hc'⟩
  | none =>
    obtain ⟨t', heq, hget, hpres⟩ :=
      helper_spec p.relative.length t p c rfl hp hfind
    refine ⟨⟨t', insertAssoc mem p p⟩, ?_, rfl, ⟨_, hget, ctx_mk _ _ _ _⟩, ?_⟩
    · unfold setCgroupContext addToTree addToTreeHelper
      rw [hfind, heq]
    · intro q m hq hm
      obtain ⟨m', hm', hc', _⟩ := hpres q m hm
      exact ⟨m', hm', hc'⟩



theorem runOps_concat (ops : List (CgroupPath × CgroupContext))
    (o : CgroupPath × CgroupContext) :
    runOps (ops ++ [o]) = stepOp (runOps ops) o := by
  simp [runOps, List.foldl_append]

theorem lastSet_concat (ops : List (CgroupPath × CgroupContext))
    (o : CgroupPath × CgroupContext) (p : CgroupPath) :
    lastSet (ops ++ [o]) p = if o.1 = p then some o.2 else lastSet ops p := by
  simp [lastSet, List.foldl_append]

theorem runOps_inv (ops : List (CgroupPath × CgroupContext)) :
    ∀ p, p.isRoot = false →
      (lookupAssoc (runOps ops).memory_state p
        = if (lastSet ops p).isSome then some p else none) ∧
      (∀ c, lastSet ops p = some c →
        ∃ n, findInTree (runOps ops).root p = some n ∧ n.ctx = c) := by
  induction ops using List.reverseRecOn with
  | nil =>
    intro p hp
    refine ⟨rfl, fun c hc => absurd hc (by simp [lastSet])⟩
  | append_singleton ops o ih =>
    intro p hp
    obtain ⟨q, c₀⟩ := o
    rw [runOps_concat, lastSet_concat]
    cases hq : q.isRoot with
    | true =>
      have hqp : ¬q = p := fun h => by
        rw [h, hp] at hq
        exact Bool.noConfusion hq
      obtain ⟨s', v, hset, hmem, htree⟩ :=
        set_root_level (runOps ops) q c₀ hq
      have hstep : stepOp (runOps ops) (q, c₀) = s' := by
        simp [stepOp, hset]
      rw [hstep]
      simp only [hqp, if_false]
      constructor
      · rw [hmem, lookup_insert_other _ _ _ _ (fun h => hqp h.symm)]
        exact (ih p hp).1
      · intro c hc
        obtain ⟨n, hn, hctx⟩ := (ih p hp).2 c hc
        have := htree p hp
        rw [hn] at this
        simp only [Option.map_some'] at this
        obtain ⟨n', hn', hc'⟩ := Option.map_eq_some'.mp this
        exact ⟨n', hn', by rw [hc', hctx]⟩
    | false =>
      obtain ⟨s', hset, hmem, hget, hpres⟩ :=
        set_nonroot (runOps ops) q c₀ hq
      have hstep : stepOp (runOps ops) (q, c₀) = s' := by
        simp [stepOp, hset]
      rw [hstep]
      by_cases hqp : q = p
      · subst hqp
        simp only [if_pos rfl, Option.isSome_some]
        constructor
        · rw [hmem]
          exact lookup_insert_same _ _ _
        · intro c hc
          cases hc
          exact hget
      · simp only [hqp, if_false]
        constructor
        · rw [hmem, lookup_insert_other _ _ _ _ (fun h => hqp h.symm)]
          exact (ih p hp).1
        · intro c hc
          obtain ⟨n, hn, hctx⟩ := (ih p hp).2 c hc
          obtain ⟨n', hn', hc'⟩ := hpres p n (fun h => hqp h.symm) hn
          exact ⟨n', hn', by rw [hc', hctx]⟩

/-- Claim C6 as amended: for every history of setCgroupContext calls
and every path with a nonempty relative part, lookup raises
"Cgroup not present" exactly when the path was never set, and otherwise
returns the context most recently set for it (root-level paths are
excluded: they alias the single root node, whose creating insertion
discards the supplied context). -/
theorem claim_c6 (ops : List (CgroupPath × CgroupContext)) (p : CgroupPath)
    (hp : p.isRoot = false) :
    getCgroupContext (runOps ops) p =
      (match lastSet ops p with
        | some c => .ok c
        | none => .error "Cgroup not present") ∧
      hasCgroupContext (runOps ops) p = (lastSet ops p).isSome := by
  obtain ⟨hmap, htree⟩ := runOps_inv ops p hp
  cases hls : lastSet ops p with
  | none =>
    rw [hls] at hmap
    simp only [Option.isSome_none, Bool.false_eq_true, if_false] at hmap
    unfold getCgroupContext hasCgroupContext
    rw [hmap]
    exact ⟨rfl, rfl⟩
  | some c =>
    rw [hls] at hmap
    simp only [Option.isSome_some, if_true] at hmap
    obtain ⟨n, hn, hctx⟩ := htree c hls
    unfold getCgroupContext hasCgroupContext
    rw [hmap]
    refine ⟨?_, rfl⟩
    show Except.ok (derefCtx (runOps ops).root p) = Except.ok c
    unfold derefCtx
    rw [hn]
    show Except.ok n.ctx = Except.ok c
    rw [hctx]



/-- Counterexample to claim C6 as stated: the first insertion of the
root cgroup path discards the supplied context — the lookup returns the
default-constructed context instead of the most recently set one. -/
theorem claim_c6_counterexample :
    getCgroupContext (runOps [(pathRoot, ctxA)]) pathRoot = .ok {} ∧
      ctxA ≠ ({} : CgroupContext) :=
  ⟨rfl, by decide⟩

/-- Witness for claim C6 on a concrete one-element history. -/
theorem claim_c6_witness :
    getCgroupContext (runOps [(pathA, ctxA)]) pathA = .ok ctxA ∧
      hasCgroupContext (runOps [(pathA, ctxA)]) pathA = true := by
  have h := claim_c6 [(pathA, ctxA)] pathA (by decide)
  exact ⟨h.1, h.2⟩


end Oomd
